import Mathlib

/-!
Shallow embedding of `pdfscale.py`, a single-file PDF page rescaler, together
with theorems settling the claims about its specification.

Modelling conventions:

* Python `decimal.Decimal` finite values are modelled by exact rationals `ℚ`
  in the Page Transform Engine, and by exact reals `ℝ` in the Format Resolver
  (the ISO 216 formats involve irrational powers of two).  The default
  decimal context rounds every arithmetic operation to 28 significant digits
  with ROUND_HALF_EVEN; this rounding is modelled explicitly (`decRoundSig`)
  for the module constant `PT`, where exactness is itself the point of the
  claim under scrutiny, and idealised to exact arithmetic elsewhere.
* Python strings are modelled as `List Char` (ASCII case folding and
  whitespace; the inputs of interest are ASCII).
* Fallible operations (`Decimal(str)`, `int(str)`, the resolver itself)
  return `Option`.
-/

namespace Pdfscale

/-! ### The default decimal context: rounding to 28 significant digits -/

/-- Round a rational to the nearest integer, ties to even
(the default `decimal` rounding mode ROUND_HALF_EVEN). -/
def roundHalfEven (x : ℚ) : ℤ :=
  let n := ⌊x⌋
  let r := x - n
  if r < 1/2 then n
  else if 1/2 < r then n + 1
  else if n % 2 = 0 then n else n + 1

/-- Fuel-driven count of base-10 digits. -/
def digLenAux : ℕ → ℕ → ℕ
  | 0, _ => 1
  | fuel+1, n => if n < 10 then 1 else digLenAux fuel (n / 10) + 1

/-- Number of base-10 digits of `n` (valid for `n < 10^40`, far beyond every
number appearing in the program's constants). -/
def digLen (n : ℕ) : ℕ := digLenAux 40 n

/-- The adjusted exponent of a positive rational: the largest `e` with
`10^e ≤ q`. -/
def adjExp (q : ℚ) : ℤ :=
  let e0 : ℤ := (digLen q.num.natAbs : ℤ) - (digLen q.den : ℤ)
  if (10:ℚ) ^ e0 ≤ q then e0 else e0 - 1

/-- Round `q` to `p` significant digits, ties to even: the default `decimal`
context (`prec = 28`, ROUND_HALF_EVEN) applies this after every inexact
arithmetic operation. -/
def decRoundSig (p : ℕ) (q : ℚ) : ℚ :=
  if q = 0 then 0
  else
    let shift : ℤ := (p : ℤ) - 1 - adjExp |q|
    let m : ℤ := roundHalfEven (|q| * (10:ℚ) ^ shift)
    (if q < 0 then -1 else 1) * (m : ℚ) * (10:ℚ) ^ (-shift)

/-- `INCH = Decimal('25.4')` (src/pdfscale.py line 12): exact. -/
def INCH : ℚ := 254/10

/-- `PT = Decimal(1)/72 * INCH` (src/pdfscale.py line 15).  The division and
the multiplication are both rounded to 28 significant digits by the default
decimal context, so `PT` is the context rounding of 25.4/72, not the exact
rational. -/
def PT : ℚ := decRoundSig 28 (decRoundSig 28 (1/72) * INCH)

/-! ### The Page Transform Engine (`scale`, src/pdfscale.py lines 18-74) -/

/-- A PDF rectangle `[x0, y0, x1, y1]` in page-native units. -/
structure Box where
  x0 : ℚ
  y0 : ℚ
  x1 : ℚ
  y1 : ℚ
deriving DecidableEq, Repr

/-- A content-stream instruction.  The engine treats the stream as opaque
except for prepending one matrix-concatenation (`cm`) instruction. -/
inductive Instr where
  | cm (a b c d e f : ℚ)
  | other (code : ℕ)
deriving DecidableEq, Repr

/-- The per-page state read and written through pikepdf: the primary
`/MediaBox`, the four optional auxiliary boxes, the `/UserUnit` scale
(default 1) and the parsed content stream. -/
structure Page where
  mediabox : Box
  cropBox  : Option Box
  bleedBox : Option Box
  trimBox  : Option Box
  artBox   : Option Box
  userUnit : ℚ
  content  : List Instr
deriving DecidableEq, Repr

/-- Line 24: `fmt = tuple(Decimal(e)/(PT*user_unit) for e in fmt_mm)` —
the target size converted to page-native units. -/
def fmtNative (fmt_mm : ℚ × ℚ) (user_unit : ℚ) : ℚ × ℚ :=
  (fmt_mm.1 / (PT * user_unit), fmt_mm.2 / (PT * user_unit))

/-- Body of the per-page loop of `scale` (src/pdfscale.py lines 22-74).
Returns `none` when the loop `continue`s without touching the page
(the "NoChange" outcome), otherwise the committed page state. -/
def scalePage (fmt_mm : ℚ × ℚ) (pg : Page) : Option Page :=
  let user_unit := pg.userUnit
  let fmt := fmtNative fmt_mm user_unit
  let old_mediabox := pg.mediabox
  let width := old_mediabox.x1 - old_mediabox.x0
  let height := old_mediabox.y1 - old_mediabox.y0
  let x_diff := width - fmt.1
  let y_diff := height - fmt.2
  -- threshold = 1; skip when both differences are below it
  if |x_diff| < 1 ∧ |y_diff| < 1 then
    none
  else
    -- resize the top right corner only
    let newbox : Box := ⟨old_mediabox.x0, old_mediabox.y0,
                         old_mediabox.x1 - x_diff, old_mediabox.y1 - y_diff⟩
    let sc := if x_diff > y_diff then fmt.1 / width else fmt.2 / height
    let translation : ℚ × ℚ :=
      if x_diff > y_diff then
        (newbox.x0 - old_mediabox.x0 * sc,
         newbox.y0 + (fmt.2 - height * sc) / 2 - old_mediabox.y0 * sc)
      else
        (newbox.x0 + (fmt.1 - width * sc) / 2 - old_mediabox.x0 * sc,
         newbox.y0 - old_mediabox.y0 * sc)
    some { mediabox := newbox
           -- every auxiliary box that exists is set to the new mediabox
           cropBox  := pg.cropBox.map fun _ => newbox
           bleedBox := pg.bleedBox.map fun _ => newbox
           trimBox  := pg.trimBox.map fun _ => newbox
           artBox   := pg.artBox.map fun _ => newbox
           userUnit := pg.userUnit
           content  := Instr.cm sc 0 0 sc translation.1 translation.2 :: pg.content }

/-- What the driver leaves on the page: the committed result, or the page
untouched when the engine skipped it. -/
def applyScale (fmt_mm : ℚ × ℚ) (pg : Page) : Page :=
  (scalePage fmt_mm pg).getD pg

/-- Semantics of a `cm` shorthand `(a, b, c, d, e, f)` on a content point. -/
def applyCM (a b c d e f : ℚ) (p : ℚ × ℚ) : ℚ × ℚ :=
  (a * p.1 + c * p.2 + e, b * p.1 + d * p.2 + f)

/-! ### Strings and characters

Python strings are modelled as `List Char`; `str.lower`, `str.strip`,
`str.lstrip` and `str.split('x', 1)` are modelled on ASCII characters. -/

/-- ASCII case folding, the effect of `str.lower` on the characters that
matter here. -/
def lowerChar (c : Char) : Char :=
  if 65 ≤ c.toNat ∧ c.toNat ≤ 90 then Char.ofNat (c.toNat + 32) else c

/-- The whitespace characters stripped by `str.strip` (ASCII). -/
def isSpaceChar (c : Char) : Bool :=
  c.toNat == 32 || c.toNat == 9 || c.toNat == 10 ||
  c.toNat == 13 || c.toNat == 11 || c.toNat == 12

def isDigitChar (c : Char) : Bool :=
  48 ≤ c.toNat && c.toNat ≤ 57

def digitVal (c : Char) : ℕ := c.toNat - 48

/-- The natural number denoted by a digit string. -/
def digitsToNat (l : List Char) : ℕ :=
  l.foldl (fun a c => 10 * a + digitVal c) 0

/-- `str.lstrip`. -/
def trimLeft (l : List Char) : List Char := l.dropWhile isSpaceChar

/-- `str.rstrip`. -/
def trimRight : List Char → List Char
  | [] => []
  | c :: cs =>
    match trimRight cs with
    | [] => if isSpaceChar c then [] else [c]
    | r => c :: r

/-- `str.strip`. -/
def trimWS (l : List Char) : List Char := trimRight (trimLeft l)

/-- `str.split(c, 1)`: the part before the first occurrence of `c` and the
part after it (meaningful when `c` occurs in the list). -/
def splitAtFirst (c : Char) (l : List Char) : List Char × List Char :=
  (l.takeWhile (· != c), (l.dropWhile (· != c)).tail)

/-! ### Decimal values and the `Decimal(str)` constructor -/

/-- The value of a Python `Decimal` produced by the format resolver.  Finite
values are modelled by their exact real value; the special values `Infinity`,
`NaN` and `sNaN` are explicit constructors (`Decimal('nan')` is modelled with
payload 0). -/
inductive Dec where
  | fin (x : ℝ)
  | inf (neg : Bool)
  | nan (signaling : Bool) (neg : Bool) (payload : ℕ)

/-- Strict positivity of a Decimal value (`d > 0` in Python): positive
finite values and `+Infinity`; never a NaN. -/
def Dec.IsPos : Dec → Prop
  | .fin x => 0 < x
  | .inf neg => neg = false
  | .nan _ _ _ => False

/-- Whether a Decimal value is finite. -/
def Dec.isFiniteVal : Dec → Bool
  | .fin _ => true
  | _ => false

/-- The real value `±(digits of ip ++ fp) × 10^(e - |fp|)` of a parsed finite
decimal literal with integer part `ip`, fractional part `fp`, exponent `e`. -/
noncomputable def decValue (neg : Bool) (ip fp : List Char) (e : ℤ) : ℝ :=
  (if neg then -1 else 1) * (digitsToNat (ip ++ fp) : ℝ) *
    (10 : ℝ) ^ (e - (fp.length : ℤ))

/-- A nonempty all-digit string, as a natural number. -/
def parseUnsignedDigits (l : List Char) : Option ℕ :=
  if l ≠ [] ∧ l.all isDigitChar then some (digitsToNat l) else none

/-- An optionally signed nonempty digit string (the decimal exponent part). -/
def parseSignedDigits (l : List Char) : Option ℤ :=
  match l with
  | '+' :: r =>
    match parseUnsignedDigits r with
    | some n => some (n : ℤ)
    | none => none
  | '-' :: r =>
    match parseUnsignedDigits r with
    | some n => some (-(n : ℤ))
    | none => none
  | r =>
    match parseUnsignedDigits r with
    | some n => some (n : ℤ)
    | none => none

/-- The finite-number branch of the decimal numeric-string grammar:
`digits [. digits] [e [sign] digits]`, with at least one digit in the
coefficient (`"1."`, `".5"` are valid, `"."`, `"e5"` are not). -/
noncomputable def decFinite (neg : Bool) (body : List Char) : Option Dec :=
  let mant := if 'e' ∈ body then (splitAtFirst 'e' body).1 else body
  let expOpt : Option ℤ :=
    if 'e' ∈ body then parseSignedDigits (splitAtFirst 'e' body).2 else some 0
  match expOpt with
  | none => none
  | some e =>
    let ip := if '.' ∈ mant then (splitAtFirst '.' mant).1 else mant
    let fp := if '.' ∈ mant then (splitAtFirst '.' mant).2 else []
    if ip.all isDigitChar ∧ fp.all isDigitChar ∧ ip ++ fp ≠ [] then
      some (Dec.fin (decValue neg ip fp e))
    else none

/-- The body of a decimal numeric string after the optional sign:
`inf`/`infinity`, `nan`/`snan` with optional digit payload, or a finite
numeric literal. -/
noncomputable def decBody (neg : Bool) (body : List Char) : Option Dec :=
  if body = ['i', 'n', 'f'] ∨ body = ['i', 'n', 'f', 'i', 'n', 'i', 't', 'y'] then
    some (Dec.inf neg)
  else if ['n', 'a', 'n'].isPrefixOf body ∧ (body.drop 3).all isDigitChar then
    some (Dec.nan false neg (digitsToNat (body.drop 3)))
  else if ['s', 'n', 'a', 'n'].isPrefixOf body ∧ (body.drop 4).all isDigitChar then
    some (Dec.nan true neg (digitsToNat (body.drop 4)))
  else decFinite neg body

/-- A decimal numeric string: optional sign, then a body. -/
noncomputable def decNumber (cs : List Char) : Option Dec :=
  match cs with
  | '+' :: r => decBody false r
  | '-' :: r => decBody true r
  | r => decBody false r

/-- Cleaning performed by the `Decimal(str)` constructor before the grammar:
case folding, stripping surrounding whitespace, removing underscores. -/
def cleanDecStr (l : List Char) : List Char :=
  (trimWS (l.map lowerChar)).filter (fun c => c != '_')

/-- Model of the Python `Decimal(str)` constructor: `none` when the string
raises `InvalidOperation` (conversion syntax). -/
noncomputable def pyDecimal (l : List Char) : Option Dec :=
  decNumber (cleanDecStr l)

/-! ### The Python `int(str)` constructor (used for the ISO 216 size) -/

/-- Digits with single underscores allowed between digits, accumulating. -/
def intDigitsGo : ℕ → List Char → Option ℕ
  | acc, [] => some acc
  | acc, '_' :: d :: r =>
    if isDigitChar d then intDigitsGo (10 * acc + digitVal d) r else none
  | acc, d :: r =>
    if isDigitChar d then intDigitsGo (10 * acc + digitVal d) r else none

/-- A nonempty digit string with optional inner underscores. -/
def parseIntDigits (l : List Char) : Option ℕ :=
  match l with
  | [] => none
  | d :: r => if isDigitChar d then intDigitsGo (digitVal d) r else none

/-- Model of the Python `int(str)` constructor (ASCII): surrounding
whitespace, an optional sign, then digits; `none` when it raises
`ValueError`. -/
def parseInt (l : List Char) : Option ℤ :=
  match trimWS l with
  | '+' :: r =>
    match parseIntDigits r with
    | some n => some (n : ℤ)
    | none => none
  | '-' :: r =>
    match parseIntDigits r with
    | some n => some (-(n : ℤ))
    | none => none
  | r =>
    match parseIntDigits r with
    | some n => some (n : ℤ)
    | none => none

/-! ### ISO 216 formats (`iso216_format`, src/pdfscale.py lines 83-93) -/

/-- `_ISO216_VALUES`: the exponent offsets of the three series.  The values
`Decimal(1)/4`, `Decimal(1)/2`, `Decimal(3)/8` are all exact.  The default
branch is never reached: the caller guards `series in "abc"`. -/
def isoBase (c : Char) : ℚ :=
  if c = 'a' then 1/4 else if c = 'b' then 1/2 else if c = 'c' then 3/8 else 0

/-- `iso216_format(series, size)`:
`height = Decimal(2) ** (v - size/2) * 1000`,
`width = Decimal(2) ** (v - (size+1)/2) * 1000`, returned as
`(width, height)`.  The fractional powers of two are idealised to their
exact real values (the Python code rounds them to 28 significant digits). -/
noncomputable def iso216_format (series : Char) (size : ℤ) : Dec × Dec :=
  (Dec.fin ((2 : ℝ) ^ (((isoBase series - ((size : ℚ) + 1) / 2 : ℚ) : ℝ)) * 1000),
   Dec.fin ((2 : ℝ) ^ (((isoBase series - (size : ℚ) / 2 : ℚ) : ℝ)) * 1000))

/-! ### The format resolver (`get_format`, src/pdfscale.py lines 106-141) -/

/-- The prefixes tried, in order, by the ISO 216 stage. -/
def isoPrefixes : List (List Char) :=
  [['d', 'i', 'n', '-'], ['d', 'i', 'n'],
   ['i', 's', 'o', ' ', '2', '1', '6'], ['i', 's', 'o', '2', '1', '6'], []]

/-- The `for prefix in (...)` loop of `get_format`: for the first prefix of
the string, strip it and leading whitespace, read one series character and
`int(...)` the rest; on `IndexError`/`ValueError` or a failed guard fall
through to the next prefix.  (The walrus guard `(fmt := iso216_format(...))`
is always truthy: a nonempty tuple.) -/
noncomputable def isoLoop : List (List Char) → List Char → Option (Dec × Dec)
  | [], _ => none
  | p :: ps, t =>
    if p.isPrefixOf t then
      match trimLeft (t.drop p.length) with
      | [] => isoLoop ps t
      | c :: rest =>
        match parseInt rest with
        | none => isoLoop ps t
        | some z =>
          if (c = 'a' ∨ c = 'b' ∨ c = 'c') ∧ 0 ≤ z ∧ z ≤ 10 then
            some (iso216_format c z)
          else isoLoop ps t
    else isoLoop ps t

/-- `FORMATS["us letter"] = (Decimal('8.5') * INCH, 14 * INCH)`: both
products are exact. -/
noncomputable def usLetter : Dec × Dec :=
  (Dec.fin (((85 / 10 * INCH : ℚ) : ℝ)), Dec.fin (((14 * INCH : ℚ) : ℝ)))

/-- The named-table stage: the `FORMATS` lookup followed by the `SYNONYMS`
lookup (`"letter" -> "us letter"`). -/
noncomputable def namedFormats (t : List Char) : Option (Dec × Dec) :=
  if t = ['u', 's', ' ', 'l', 'e', 't', 't', 'e', 'r'] then some usLetter
  else if t = ['l', 'e', 't', 't', 'e', 'r'] then some usLetter
  else none

/-- Stages 2 and 3 of `get_format`: the ISO 216 prefix loop, then the named
tables, then the implicit `None`. -/
noncomputable def isoNamed (t : List Char) : Option (Dec × Dec) :=
  match isoLoop isoPrefixes t with
  | some f => some f
  | none => namedFormats t

/-- Lines 112-113: `fmt_string.lower()` then `.strip()`. -/
def cleanFmt (s : String) : List Char := trimWS (s.data.map lowerChar)

/-- `get_format(fmt_string)`: explicit `WxH` dimensions when the string
contains an `x` and both halves of the first split parse as decimals,
otherwise the ISO 216 stage and the named tables. -/
noncomputable def get_format (s : String) : Option (Dec × Dec) :=
  let t := cleanFmt s
  if 'x' ∈ t then
    match pyDecimal (splitAtFirst 'x' t).1, pyDecimal (splitAtFirst 'x' t).2 with
    | some w, some h => some (w, h)
    | _, _ => isoNamed t
  else isoNamed t

/-! ### Concrete pages used to exercise the engine -/

/-- A 10 by 20 unit page at the origin with a CropBox and one content
instruction. -/
def wpageA : Page :=
  ⟨⟨0, 0, 10, 20⟩, some ⟨1, 2, 3, 4⟩, none, none, none, 1, [Instr.other 0]⟩

/-- The state of `wpageA` after scaling to a 5 by 20 unit target. -/
def wpageA' : Page :=
  ⟨⟨0, 0, 5, 20⟩, some ⟨0, 0, 5, 20⟩, none, none, none, 1,
   [Instr.cm (1/2) 0 0 (1/2) 0 5, Instr.other 0]⟩

/-! ### Supporting lemmas -/

lemma toNat_ofNat_valid (n : ℕ) (h : n < 55296) : (Char.ofNat n).toNat = n := by
  unfold Char.ofNat
  rw [dif_pos (Or.inl h)]
  rfl

lemma lowerChar_lowerChar (c : Char) : lowerChar (lowerChar c) = lowerChar c := by
  unfold lowerChar
  by_cases h : 65 ≤ c.toNat ∧ c.toNat ≤ 90
  · rw [if_pos h, if_neg]
    rw [toNat_ofNat_valid _ (by omega)]
    omega
  · rw [if_neg h, if_neg h]

lemma isSpaceChar_lowerChar (c : Char) : isSpaceChar (lowerChar c) = isSpaceChar c := by
  unfold lowerChar
  by_cases h : 65 ≤ c.toNat ∧ c.toNat ≤ 90
  · rw [if_pos h]
    have h1 : isSpaceChar (Char.ofNat (c.toNat + 32)) = false := by
      simp only [isSpaceChar, toNat_ofNat_valid _ (by omega : c.toNat + 32 < 55296),
        Bool.or_eq_false_iff, beq_eq_false_iff_ne]
      omega
    have h2 : isSpaceChar c = false := by
      simp only [isSpaceChar, Bool.or_eq_false_iff, beq_eq_false_iff_ne]
      omega
    rw [h1, h2]
  · rw [if_neg h]

lemma map_lowerChar_idem (l : List Char) :
    (l.map lowerChar).map lowerChar = l.map lowerChar := by
  rw [List.map_map, show lowerChar ∘ lowerChar = lowerChar from funext lowerChar_lowerChar]

lemma trimLeft_cons_space {l : List Char} : trimLeft (' ' :: l) = trimLeft l := by
  simp [trimLeft, List.dropWhile_cons, show isSpaceChar ' ' = true from rfl]

lemma trimLeft_cons_nonspace {c : Char} {l : List Char} (h : isSpaceChar c = false) :
    trimLeft (c :: l) = c :: l := by
  simp [trimLeft, List.dropWhile_cons, h]

lemma trimLeft_replicate (k : ℕ) (l : List Char) :
    trimLeft (List.replicate k ' ' ++ l) = trimLeft l := by
  induction k with
  | zero => simp
  | succ k ih => rw [List.replicate_succ, List.cons_append, trimLeft_cons_space, ih]

lemma trimLeft_map_lowerChar (l : List Char) :
    trimLeft (l.map lowerChar) = (trimLeft l).map lowerChar := by
  unfold trimLeft
  rw [List.dropWhile_map,
    show isSpaceChar ∘ lowerChar = isSpaceChar from funext isSpaceChar_lowerChar]

lemma trimLeft_idem (l : List Char) : trimLeft (trimLeft l) = trimLeft l := by
  induction l with
  | nil => rfl
  | cons a l ih =>
    by_cases ha : isSpaceChar a
    · simpa [trimLeft, List.dropWhile_cons, ha] using ih
    · simp [trimLeft, List.dropWhile_cons, ha]

lemma trimLeft_append_cons {A B : List Char} {c : Char} (hc : isSpaceChar c = false) :
    trimLeft (A ++ c :: B) = trimLeft A ++ c :: B := by
  induction A with
  | nil => simp [trimLeft, List.dropWhile_cons, hc]
  | cons a A ih =>
    by_cases ha : isSpaceChar a
    · simpa [trimLeft, List.dropWhile_cons, ha] using ih
    · simp [trimLeft, List.dropWhile_cons, ha]

lemma mem_trimLeft_of_mem {l : List Char} {c : Char} (h : c ∈ l)
    (hc : isSpaceChar c = false) : c ∈ trimLeft l := by
  induction l with
  | nil => exact absurd h (List.not_mem_nil c)
  | cons a l ih =>
    by_cases ha : isSpaceChar a
    · rcases List.mem_cons.mp h with rfl | hm
      · exact absurd ha (by rw [hc]; exact Bool.false_ne_true)
      · simpa [trimLeft, List.dropWhile_cons, ha] using ih hm
    · simpa [trimLeft, List.dropWhile_cons, ha] using h

lemma trimRight_map_lowerChar (l : List Char) :
    trimRight (l.map lowerChar) = (trimRight l).map lowerChar := by
  induction l with
  | nil => rfl
  | cons a l ih =>
    simp only [List.map_cons, trimRight, ih, isSpaceChar_lowerChar a]
    cases h : trimRight l with
    | nil => by_cases ha : isSpaceChar a <;> simp [ha]
    | cons r rs => simp

lemma trimRight_eq_nil {l : List Char} (h : trimRight l = []) :
    ∀ c ∈ l, isSpaceChar c = true := by
  induction l with
  | nil => intro c hc; exact absurd hc (List.not_mem_nil c)
  | cons a l ih =>
    intro c hc
    rw [trimRight] at h
    cases h2 : trimRight l with
    | nil =>
      rw [h2] at h
      by_cases ha : isSpaceChar a
      · rcases List.mem_cons.mp hc with rfl | hm
        · exact ha
        · exact ih h2 c hm
      · rw [if_neg ha] at h
        exact absurd h (by simp)
    | cons r rs =>
      rw [h2] at h
      exact absurd h (by simp)

lemma trimRight_append_cons {A B : List Char} {c : Char} (hc : isSpaceChar c = false) :
    trimRight (A ++ c :: B) = A ++ c :: trimRight B := by
  induction A with
  | nil =>
    simp only [List.nil_append, trimRight]
    cases h : trimRight B with
    | nil => simp [hc]
    | cons r rs => simp
  | cons a A ih =>
    have hne : A ++ c :: trimRight B ≠ [] := by simp
    rw [List.cons_append, trimRight, ih]
    cases hA : A ++ c :: trimRight B with
    | nil => exact absurd hA hne
    | cons u us => rw [List.cons_append, hA]

lemma mem_trimRight_of_mem {l : List Char} {c : Char} (h : c ∈ l)
    (hc : isSpaceChar c = false) : c ∈ trimRight l := by
  induction l with
  | nil => exact absurd h (List.not_mem_nil c)
  | cons a l ih =>
    rw [trimRight]
    cases h2 : trimRight l with
    | nil =>
      rcases List.mem_cons.mp h with rfl | hm
      · simp [hc]
      · exact absurd (trimRight_eq_nil h2 c hm) (by rw [hc]; exact Bool.false_ne_true)
    | cons r rs =>
      rcases List.mem_cons.mp h with rfl | hm
      · exact List.mem_cons_self _ _
      · exact List.mem_cons_of_mem _ (h2 ▸ ih hm)

lemma trimRight_idem (l : List Char) : trimRight (trimRight l) = trimRight l := by
  induction l with
  | nil => rfl
  | cons a l ih =>
    rw [trimRight]
    cases h : trimRight l with
    | nil =>
      by_cases ha : isSpaceChar a
      · simp [ha, trimRight]
      · simp [ha, trimRight]
    | cons r rs =>
      rw [h] at ih
      rw [trimRight, ih]

lemma trim_comm (l : List Char) : trimLeft (trimRight l) = trimRight (trimLeft l) := by
  induction l with
  | nil => rfl
  | cons a l ih =>
    by_cases ha : isSpaceChar a
    · rw [show trimLeft (a :: l) = trimLeft l from by simp [trimLeft, List.dropWhile_cons, ha],
        ← ih, trimRight]
      cases h : trimRight l with
      | nil => simp [ha]
      | cons r rs => simp [trimLeft, List.dropWhile_cons, ha]
    · rw [show trimLeft (a :: l) = a :: l from by simp [trimLeft, List.dropWhile_cons, ha],
        trimRight]
      cases h : trimRight l with
      | nil => simp [ha, trimLeft, List.dropWhile_cons]
      | cons r rs => simp [trimLeft, List.dropWhile_cons, ha]

lemma trimWS_trimLeft (l : List Char) : trimWS (trimLeft l) = trimWS l := by
  unfold trimWS
  rw [trimLeft_idem]

lemma trimWS_trimRight (l : List Char) : trimWS (trimRight l) = trimWS l := by
  unfold trimWS
  rw [show trimLeft (trimRight l) = trimRight (trimLeft l) from trim_comm l, trimRight_idem]

lemma trimWS_append_cons {A B : List Char} {c : Char} (hc : isSpaceChar c = false) :
    trimWS (A ++ c :: B) = trimLeft A ++ c :: trimRight B := by
  unfold trimWS
  rw [trimLeft_append_cons hc, trimRight_append_cons hc]

lemma takeWhile_neq_append {c : Char} {P S : List Char} (h : c ∉ P) :
    (P ++ c :: S).takeWhile (· != c) = P := by
  induction P with
  | nil => simp [List.takeWhile_cons]
  | cons p P ih =>
    have hp : (p != c) = true := by
      simp only [bne_iff_ne, ne_eq]
      exact fun hpc => h (hpc ▸ List.mem_cons_self p P)
    simp only [List.cons_append, List.takeWhile_cons, hp, if_true]
    rw [ih (fun hm => h (List.mem_cons_of_mem p hm))]

lemma dropWhile_neq_append {c : Char} {P S : List Char} (h : c ∉ P) :
    (P ++ c :: S).dropWhile (· != c) = c :: S := by
  induction P with
  | nil => simp [List.dropWhile_cons]
  | cons p P ih =>
    have hp : (p != c) = true := by
      simp only [bne_iff_ne, ne_eq]
      exact fun hpc => h (hpc ▸ List.mem_cons_self p P)
    simp only [List.cons_append, List.dropWhile_cons, hp, if_true]
    exact ih (fun hm => h (List.mem_cons_of_mem p hm))

lemma splitAtFirst_append {c : Char} {P S : List Char} (h : c ∉ P) :
    splitAtFirst c (P ++ c :: S) = (P, S) := by
  unfold splitAtFirst
  rw [takeWhile_neq_append h, dropWhile_neq_append h]
  rfl

lemma splitAtFirst_reconstruct {c : Char} {l : List Char} (h : c ∈ l) :
    l = (splitAtFirst c l).1 ++ c :: (splitAtFirst c l).2 ∧ c ∉ (splitAtFirst c l).1 := by
  constructor
  · unfold splitAtFirst
    induction l with
    | nil => exact absurd h (List.not_mem_nil c)
    | cons a l ih =>
      by_cases hac : a = c
      · subst hac
        simp [List.takeWhile_cons, List.dropWhile_cons]
      · have hp : (a != c) = true := by simp [bne_iff_ne, hac]
        rcases List.mem_cons.mp h with rfl | hm
        · exact absurd rfl hac
        · simp only [List.takeWhile_cons, List.dropWhile_cons, hp, if_true, List.cons_append,
            List.cons.injEq, true_and]
          exact ih hm
  · intro hmem
    have := List.mem_takeWhile_imp hmem
    simp at this

lemma pyDecimal_trimLeft_lower (l : List Char) :
    pyDecimal (trimLeft (l.map lowerChar)) = pyDecimal l := by
  unfold pyDecimal cleanDecStr
  rw [show (trimLeft (l.map lowerChar)).map lowerChar = trimLeft (l.map lowerChar) from by
      rw [← trimLeft_map_lowerChar, map_lowerChar_idem],
    trimWS_trimLeft]

lemma pyDecimal_trimRight_lower (l : List Char) :
    pyDecimal (trimRight (l.map lowerChar)) = pyDecimal l := by
  unfold pyDecimal cleanDecStr
  rw [show (trimRight (l.map lowerChar)).map lowerChar = trimRight (l.map lowerChar) from by
      rw [← trimRight_map_lowerChar, map_lowerChar_idem],
    trimWS_trimRight]

lemma parseUnsignedDigits_no_x {l : List Char} {n : ℕ}
    (h : parseUnsignedDigits l = some n) : 'x' ∉ l := by
  unfold parseUnsignedDigits at h
  split_ifs at h with hcond
  intro hx
  exact absurd (List.all_eq_true.mp hcond.2 _ hx) (by decide)

lemma parseSignedDigits_no_x {l : List Char} {z : ℤ}
    (h : parseSignedDigits l = some z) : 'x' ∉ l := by
  unfold parseSignedDigits at h
  split at h
  · split at h
    · intro hx
      rcases List.mem_cons.mp hx with hx1 | hx2
      · exact absurd hx1 (by decide)
      · rename_i n heq
        exact parseUnsignedDigits_no_x heq hx2
    · exact Option.noConfusion h
  · split at h
    · intro hx
      rcases List.mem_cons.mp hx with hx1 | hx2
      · exact absurd hx1 (by decide)
      · rename_i n heq
        exact parseUnsignedDigits_no_x heq hx2
    · exact Option.noConfusion h
  · split at h
    · rename_i n heq
      exact parseUnsignedDigits_no_x heq
    · exact Option.noConfusion h

lemma decFinite_no_x {neg : Bool} {body : List Char} {d : Dec}
    (h : decFinite neg body = some d) : 'x' ∉ body := by
  unfold decFinite at h
  by_cases he : 'e' ∈ body
  · simp only [if_pos he] at h
    cases hexp : parseSignedDigits (splitAtFirst 'e' body).2 with
    | none => rw [hexp] at h; exact absurd h (by simp)
    | some e =>
      rw [hexp] at h
      obtain ⟨hbody, -⟩ := splitAtFirst_reconstruct he
      set mant := (splitAtFirst 'e' body).1 with hmant
      intro hx
      rw [hbody] at hx
      have hxmant : 'x' ∉ mant := by
        intro hxm
        by_cases hd : '.' ∈ mant
        · simp only [if_pos hd] at h
          split_ifs at h with hall
          · obtain ⟨hmant2, -⟩ := splitAtFirst_reconstruct hd
            rw [hmant2] at hxm
            rcases List.mem_append.mp hxm with h1 | h2
            · exact absurd (List.all_eq_true.mp hall.1 _ h1) (by decide)
            · rcases List.mem_cons.mp h2 with h3 | h4
              · exact absurd h3 (by decide)
              · exact absurd (List.all_eq_true.mp hall.2.1 _ h4) (by decide)
        · simp only [if_neg hd] at h
          split_ifs at h with hall
          exact absurd (List.all_eq_true.mp hall.1 _ hxm) (by decide)
      rcases List.mem_append.mp hx with h1 | h2
      · exact hxmant h1
      · rcases List.mem_cons.mp h2 with h3 | h4
        · exact absurd h3 (by decide)
        · exact parseSignedDigits_no_x hexp h4
  · simp only [if_neg he] at h
    intro hx
    by_cases hd : '.' ∈ body
    · simp only [if_pos hd] at h
      split_ifs at h with hall
      · obtain ⟨hbody2, -⟩ := splitAtFirst_reconstruct hd
        rw [hbody2] at hx
        rcases List.mem_append.mp hx with h1 | h2
        · exact absurd (List.all_eq_true.mp hall.1 _ h1) (by decide)
        · rcases List.mem_cons.mp h2 with h3 | h4
          · exact absurd h3 (by decide)
          · exact absurd (List.all_eq_true.mp hall.2.1 _ h4) (by decide)
    · simp only [if_neg hd] at h
      split_ifs at h with hall
      exact absurd (List.all_eq_true.mp hall.1 _ hx) (by decide)

lemma decBody_no_x {neg : Bool} {body : List Char} {d : Dec}
    (h : decBody neg body = some d) : 'x' ∉ body := by
  unfold decBody at h
  split_ifs at h with h1 h2 h3
  · rcases h1 with rfl | rfl <;> decide
  · obtain ⟨t, ht⟩ := List.isPrefixOf_iff_prefix.mp h2.1
    intro hx
    rw [← ht] at hx
    rcases List.mem_append.mp hx with hx1 | hx2
    · exact absurd hx1 (by decide)
    · have hdrop : (body.drop 3).all isDigitChar = true := h2.2
      rw [← ht, show (3:ℕ) = (['n','a','n'] : List Char).length from rfl,
        List.drop_left] at hdrop
      exact absurd (List.all_eq_true.mp hdrop _ hx2) (by decide)
  · obtain ⟨t, ht⟩ := List.isPrefixOf_iff_prefix.mp h3.1
    intro hx
    rw [← ht] at hx
    rcases List.mem_append.mp hx with hx1 | hx2
    · exact absurd hx1 (by decide)
    · have hdrop : (body.drop 4).all isDigitChar = true := h3.2
      rw [← ht, show (4:ℕ) = (['s','n','a','n'] : List Char).length from rfl,
        List.drop_left] at hdrop
      exact absurd (List.all_eq_true.mp hdrop _ hx2) (by decide)
  · exact decFinite_no_x h

lemma decNumber_no_x {cs : List Char} {d : Dec}
    (h : decNumber cs = some d) : 'x' ∉ cs := by
  unfold decNumber at h
  split at h
  · intro hx
    rcases List.mem_cons.mp hx with hx1 | hx2
    · exact absurd hx1 (by decide)
    · exact decBody_no_x h hx2
  · intro hx
    rcases List.mem_cons.mp hx with hx1 | hx2
    · exact absurd hx1 (by decide)
    · exact decBody_no_x h hx2
  · exact decBody_no_x h

lemma pyDecimal_no_x {l : List Char} {d : Dec}
    (h : pyDecimal l = some d) : 'x' ∉ l.map lowerChar := by
  intro hx
  have h1 : 'x' ∈ trimLeft (l.map lowerChar) := mem_trimLeft_of_mem hx rfl
  have h2 : 'x' ∈ trimWS (l.map lowerChar) := mem_trimRight_of_mem h1 rfl
  have h3 : 'x' ∈ cleanDecStr l :=
    List.mem_filter.mpr ⟨h2, rfl⟩
  exact decNumber_no_x h h3

theorem PT_eq : PT = 3527777777777777777777777778 / 10 ^ 28 := by
  have ha1 : adjExp |(1/72 : ℚ)| = -2 := by
    rw [show |(1/72 : ℚ)| = 1/72 from by norm_num]
    unfold adjExp
    simp only [show ((1/72:ℚ)).num = 1 from by norm_num,
      show ((1/72:ℚ)).den = 72 from by norm_num, Int.natAbs_one]
    norm_num [show digLen 1 = 1 from by decide, show digLen 72 = 2 from by decide]
  have h1 : decRoundSig 28 (1/72) = 1388888888888888888888888889 / 10 ^ 29 := by
    unfold decRoundSig
    rw [if_neg (by norm_num : ¬ (1/72 : ℚ) = 0)]
    simp only [ha1]
    rw [show |(1/72 : ℚ)| = 1/72 from by norm_num,
      show ((28:ℕ):ℤ) - 1 - (-2) = (29:ℤ) from by norm_num,
      show roundHalfEven (1/72 * 10 ^ (29:ℤ)) = 1388888888888888888888888889 from by
        unfold roundHalfEven; norm_num,
      if_neg (by norm_num : ¬ (1/72 : ℚ) < 0)]
    norm_num
  have hq2 : decRoundSig 28 (1/72) * INCH
      = 352777777777777777777777777806 / 10 ^ 30 := by
    rw [h1]; unfold INCH; norm_num
  have ha2 : adjExp |(352777777777777777777777777806 / 10 ^ 30 : ℚ)| = -1 := by
    rw [show |(352777777777777777777777777806 / 10 ^ 30 : ℚ)|
        = 352777777777777777777777777806 / 10 ^ 30 from by norm_num]
    unfold adjExp
    simp only [show ((352777777777777777777777777806 / 10 ^ 30 : ℚ)).num
        = 176388888888888888888888888903 from by norm_num,
      show ((352777777777777777777777777806 / 10 ^ 30 : ℚ)).den
        = 500000000000000000000000000000 from by norm_num]
    rw [show (Int.natAbs 176388888888888888888888888903) = 176388888888888888888888888903 from rfl]
    norm_num [show digLen 176388888888888888888888888903 = 30 from by decide,
      show digLen 500000000000000000000000000000 = 30 from by decide]
  unfold PT
  rw [hq2]
  unfold decRoundSig
  rw [if_neg (by norm_num : ¬ (352777777777777777777777777806 / 10 ^ 30 : ℚ) = 0)]
  simp only [ha2]
  rw [show |(352777777777777777777777777806 / 10 ^ 30 : ℚ)|
      = 352777777777777777777777777806 / 10 ^ 30 from by norm_num,
    show ((28:ℕ):ℤ) - 1 - (-1) = (28:ℤ) from by norm_num,
    show roundHalfEven ((352777777777777777777777777806 / 10 ^ 30 : ℚ) * 10 ^ (28:ℤ))
        = 3527777777777777777777777778 from by unfold roundHalfEven; norm_num,
    if_neg (by norm_num : ¬ (352777777777777777777777777806 / 10 ^ 30 : ℚ) < 0)]
  norm_num

lemma scale_eval_A : scalePage (5 * PT, 20 * PT) wpageA = some wpageA' := by
  have h1 : (5 * PT : ℚ) / PT = 5 := by rw [PT_eq]; norm_num
  have h2 : (20 * PT : ℚ) / PT = 20 := by rw [PT_eq]; norm_num
  simp only [scalePage, fmtNative, wpageA, wpageA', mul_one]
  norm_num [h1, h2]

lemma isoLoop_resolves (series : Char) (digits : List Char) (z : ℤ) (k : ℕ) (pre : List Char)
    (hser : series = 'a' ∨ series = 'b' ∨ series = 'c')
    (hd : parseInt digits = some z) (hz0 : 0 ≤ z) (hz10 : z ≤ 10)
    (hpre : pre ∈ isoPrefixes) :
    isoLoop isoPrefixes (pre ++ List.replicate k ' ' ++ series :: digits) =
      some (iso216_format series z) := by
  have hsp : isSpaceChar series = false := by
    rcases hser with rfl | rfl | rfl <;> rfl
  simp only [isoPrefixes, List.mem_cons, List.not_mem_nil, or_false] at hpre
  rcases k with _ | k <;>
  rcases hpre with rfl | rfl | rfl | rfl | rfl <;>
  rcases hser with rfl | rfl | rfl <;>
  simp [isoPrefixes, isoLoop, List.isPrefixOf, trimLeft_cons_space, trimLeft_replicate,
    trimLeft_cons_nonspace, hd, hz0, hz10, List.replicate_succ, hsp]

lemma digitsFact (n : ℕ) (hn : n ≤ 10) :
    parseInt (Nat.toDigits 10 n) = some (n : ℤ) ∧ 'x' ∉ Nat.toDigits 10 n := by
  interval_cases n <;> exact ⟨by decide, by decide⟩

lemma get_format_skip_x {s : String} (h : 'x' ∉ cleanFmt s) :
    get_format s = isoNamed (cleanFmt s) := by
  simp only [get_format, if_neg h]

lemma isoNamed_of_loop {t : List Char} {f : Dec × Dec}
    (h : isoLoop isoPrefixes t = some f) : isoNamed t = some f := by
  simp only [isoNamed, h]

lemma isoLoop_shape {ps : List (List Char)} {t : List Char} {f : Dec × Dec}
    (h : isoLoop ps t = some f) : ∃ c z, f = iso216_format c z := by
  induction ps with
  | nil => exact absurd h (by simp [isoLoop])
  | cons p ps ih =>
    simp only [isoLoop] at h
    split at h
    · split at h
      · exact ih h
      · split at h
        · exact ih h
        · split_ifs at h with hg
          · exact ⟨_, _, (Option.some.injEq _ _ ▸ h).symm⟩
          · exact ih h
    · exact ih h

lemma rpow_a4_width_bound : |(2:ℝ) ^ ((-9 : ℝ)/4) * 1000 - 210| < 1 := by
  set x := (2:ℝ) ^ ((-9:ℝ)/4) with hx
  have hxpos : 0 < x := Real.rpow_pos_of_pos (by norm_num) _
  have hx4 : x ^ (4:ℕ) = 1 / 512 := by
    rw [hx, ← Real.rpow_natCast ((2:ℝ) ^ ((-9:ℝ)/4)) 4,
      ← Real.rpow_mul (by norm_num : (0:ℝ) ≤ 2)]
    rw [show ((-9:ℝ)/4 * (4:ℕ)) = ((-9 : ℤ) : ℝ) from by push_cast; ring,
      Real.rpow_intCast]
    norm_num
  have hlow : (210/1000 : ℝ) < x := by
    by_contra hcon
    push_neg at hcon
    have := pow_le_pow_left₀ hxpos.le hcon 4
    rw [hx4] at this
    norm_num at this
  have hhigh : x < 211/1000 := by
    by_contra hcon
    push_neg at hcon
    have := pow_le_pow_left₀ (by norm_num : (0:ℝ) ≤ 211/1000) hcon 4
    rw [hx4] at this
    norm_num at this
  rw [abs_lt]
  constructor <;> nlinarith

lemma rpow_a4_height_bound : |(2:ℝ) ^ ((-7 : ℝ)/4) * 1000 - 297| < 1 := by
  set x := (2:ℝ) ^ ((-7:ℝ)/4) with hx
  have hxpos : 0 < x := Real.rpow_pos_of_pos (by norm_num) _
  have hx4 : x ^ (4:ℕ) = 1 / 128 := by
    rw [hx, ← Real.rpow_natCast ((2:ℝ) ^ ((-7:ℝ)/4)) 4,
      ← Real.rpow_mul (by norm_num : (0:ℝ) ≤ 2)]
    rw [show ((-7:ℝ)/4 * (4:ℕ)) = ((-7 : ℤ) : ℝ) from by push_cast; ring,
      Real.rpow_intCast]
    norm_num
  have hlow : (296/1000 : ℝ) < x := by
    by_contra hcon
    push_neg at hcon
    have := pow_le_pow_left₀ hxpos.le hcon 4
    rw [hx4] at this
    norm_num at this
  have hhigh : x < 298/1000 := by
    by_contra hcon
    push_neg at hcon
    have := pow_le_pow_left₀ (by norm_num : (0:ℝ) ≤ 298/1000) hcon 4
    rw [hx4] at this
    norm_num at this
  rw [abs_lt]
  constructor <;> nlinarith

lemma iso216_a4_value' :
    iso216_format 'a' 4 =
      (Dec.fin ((2:ℝ) ^ ((-9 : ℝ)/4) * 1000), Dec.fin ((2:ℝ) ^ ((-7 : ℝ)/4) * 1000)) := by
  simp only [iso216_format, isoBase, Prod.mk.injEq]
  norm_num

/-! ### The claims -/

/-- Claim C1: for every page whose differences exceed the no-op threshold, the engine compares `x_diff` and `y_diff` with strict `>`: when `x_diff > y_diff` it uses `s = fmt.width / width` and the vertically-centering translation; otherwise (the tie included) it uses `s = fmt.height / height` and the horizontally-centering translation; the prepended `cm` instruction maps a content point `p` to `s·p + translation`. -/
theorem c1_binding_dimension_selection (fmt_mm : ℚ × ℚ) (pg : Page)
    (fw fh cw ch xd yd : ℚ) (nb : Box) (s1 tx1 ty1 s2 tx2 ty2 : ℚ)
    (hfw : fw = fmt_mm.1 / (PT * pg.userUnit))
    (hfh : fh = fmt_mm.2 / (PT * pg.userUnit))
    (hcw : cw = pg.mediabox.x1 - pg.mediabox.x0)
    (hch : ch = pg.mediabox.y1 - pg.mediabox.y0)
    (hxd : xd = cw - fw) (hyd : yd = ch - fh)
    (hnb : nb = ⟨pg.mediabox.x0, pg.mediabox.y0, pg.mediabox.x1 - xd, pg.mediabox.y1 - yd⟩)
    (hs1 : s1 = fw / cw) (htx1 : tx1 = nb.x0 - pg.mediabox.x0 * s1)
    (hty1 : ty1 = nb.y0 + (fh - ch * s1) / 2 - pg.mediabox.y0 * s1)
    (hs2 : s2 = fh / ch) (htx2 : tx2 = nb.x0 + (fw - cw * s2) / 2 - pg.mediabox.x0 * s2)
    (hty2 : ty2 = nb.y0 - pg.mediabox.y0 * s2)
    (hthr : ¬ (|xd| < 1 ∧ |yd| < 1)) :
    (xd > yd →
      scalePage fmt_mm pg = some ⟨nb, pg.cropBox.map fun _ => nb, pg.bleedBox.map fun _ => nb,
        pg.trimBox.map fun _ => nb, pg.artBox.map fun _ => nb, pg.userUnit,
        Instr.cm s1 0 0 s1 tx1 ty1 :: pg.content⟩ ∧
      ∀ p : ℚ × ℚ, applyCM s1 0 0 s1 tx1 ty1 p = (s1 * p.1 + tx1, s1 * p.2 + ty1)) ∧
    (¬ xd > yd →
      scalePage fmt_mm pg = some ⟨nb, pg.cropBox.map fun _ => nb, pg.bleedBox.map fun _ => nb,
        pg.trimBox.map fun _ => nb, pg.artBox.map fun _ => nb, pg.userUnit,
        Instr.cm s2 0 0 s2 tx2 ty2 :: pg.content⟩ ∧
      ∀ p : ℚ × ℚ, applyCM s2 0 0 s2 tx2 ty2 p = (s2 * p.1 + tx2, s2 * p.2 + ty2)) := by
  subst hfw hfh hcw hch hxd hyd hnb hs1 htx1 hty1 hs2 htx2 hty2
  constructor
  · intro hgt
    constructor
    · simp only [scalePage, fmtNative]
      rw [if_neg hthr]
      simp only [if_pos hgt]
    · intro p
      simp only [applyCM, Prod.mk.injEq]
      constructor <;> ring
  · intro hle
    constructor
    · simp only [scalePage, fmtNative]
      rw [if_neg hthr]
      simp only [if_neg hle]
    · intro p
      simp only [applyCM, Prod.mk.injEq]
      constructor <;> ring

/-- Witness for C1: a concrete page and target where the width is the binding dimension. -/
theorem c1_binding_dimension_selection_witness : scalePage (5 * PT, 20 * PT) wpageA = some wpageA' := by
  have h := ((c1_binding_dimension_selection (5 * PT, 20 * PT) wpageA 5 20 10 20 5 0 ⟨0, 0, 5, 20⟩
      (1/2) 0 5 1 (-(5/2)) 0
      (by simp only [wpageA, PT_eq]; norm_num)
      (by simp only [wpageA, PT_eq]; norm_num)
      (by norm_num [wpageA]) (by norm_num [wpageA]) (by norm_num) (by norm_num)
      (by norm_num [wpageA]) (by norm_num) (by norm_num [wpageA]) (by norm_num [wpageA])
      (by norm_num) (by norm_num [wpageA]) (by norm_num [wpageA])
      (by norm_num)).1 (by norm_num)).1
  rw [h]
  simp [wpageA, wpageA']

/-- Claim C2: a page is returned unchanged (NoChange; boxes and content untouched) if and only if `|x_diff| < 1` and `|y_diff| < 1` in page-native units, where `x_diff = width - fmt.width` and `y_diff = height - fmt.height`. -/
theorem c2_noop_threshold (fmt_mm : ℚ × ℚ) (pg : Page) :
    (scalePage fmt_mm pg = none ↔
      |pg.mediabox.x1 - pg.mediabox.x0 - fmt_mm.1 / (PT * pg.userUnit)| < 1 ∧
      |pg.mediabox.y1 - pg.mediabox.y0 - fmt_mm.2 / (PT * pg.userUnit)| < 1) ∧
    (applyScale fmt_mm pg = pg ↔
      |pg.mediabox.x1 - pg.mediabox.x0 - fmt_mm.1 / (PT * pg.userUnit)| < 1 ∧
      |pg.mediabox.y1 - pg.mediabox.y0 - fmt_mm.2 / (PT * pg.userUnit)| < 1) := by
  simp only [scalePage, applyScale, fmtNative]
  by_cases hc : |pg.mediabox.x1 - pg.mediabox.x0 - fmt_mm.1 / (PT * pg.userUnit)| < 1 ∧
      |pg.mediabox.y1 - pg.mediabox.y0 - fmt_mm.2 / (PT * pg.userUnit)| < 1
  · rw [if_pos hc]
    simp [hc]
  · rw [if_neg hc]
    simp only [Option.getD_some]
    constructor
    · simp [hc]
    · constructor
      · intro heq
        exact absurd (congrArg Page.content heq) (by simp)
      · intro h
        exact absurd h hc

/-- Claim C3: a resized page's new primary box is `(x0, y0, x1 - x_diff, y1 - y_diff)`: the bottom-left corner never moves (a box at the origin keeps it), and every auxiliary box that is present is set exactly equal to the new primary box. -/
theorem c3_box_update (fmt_mm : ℚ × ℚ) (pg pg' : Page) (xd yd : ℚ)
    (hxd : xd = pg.mediabox.x1 - pg.mediabox.x0 - fmt_mm.1 / (PT * pg.userUnit))
    (hyd : yd = pg.mediabox.y1 - pg.mediabox.y0 - fmt_mm.2 / (PT * pg.userUnit))
    (hs : scalePage fmt_mm pg = some pg') :
    pg'.mediabox = ⟨pg.mediabox.x0, pg.mediabox.y0,
                    pg.mediabox.x1 - xd, pg.mediabox.y1 - yd⟩ ∧
    (pg.mediabox.x0 = 0 ∧ pg.mediabox.y0 = 0 →
      pg'.mediabox.x0 = 0 ∧ pg'.mediabox.y0 = 0) ∧
    (pg.cropBox.isSome → pg'.cropBox = some pg'.mediabox) ∧
    (pg.bleedBox.isSome → pg'.bleedBox = some pg'.mediabox) ∧
    (pg.trimBox.isSome → pg'.trimBox = some pg'.mediabox) ∧
    (pg.artBox.isSome → pg'.artBox = some pg'.mediabox) := by
  subst hxd hyd
  simp only [scalePage, fmtNative] at hs
  by_cases hc : |pg.mediabox.x1 - pg.mediabox.x0 - fmt_mm.1 / (PT * pg.userUnit)| < 1 ∧
      |pg.mediabox.y1 - pg.mediabox.y0 - fmt_mm.2 / (PT * pg.userUnit)| < 1
  · rw [if_pos hc] at hs
    exact absurd hs (by simp)
  · rw [if_neg hc] at hs
    have hpg : pg' = _ := (Option.some.injEq _ _ ▸ hs).symm
    · subst hpg
      refine ⟨rfl, ?_, ?_, ?_, ?_, ?_⟩
      · rintro ⟨h0x, h0y⟩
        exact ⟨h0x, h0y⟩
      all_goals
        intro hsome
        simp only [Option.isSome_iff_exists] at hsome
        obtain ⟨b, hb⟩ := hsome
        simp [hb]

/-- Witness for C3: the box update and CropBox synchronisation at a concrete page. -/
theorem c3_box_update_witness : wpageA'.mediabox = ⟨0, 0, 5, 20⟩ ∧
    wpageA'.cropBox = some wpageA'.mediabox := by
  have h := c3_box_update (5 * PT, 20 * PT) wpageA wpageA' 5 0
    (by simp only [wpageA, PT_eq]; norm_num)
    (by simp only [wpageA, PT_eq]; norm_num)
    scale_eval_A
  exact ⟨h.1.trans (by norm_num [wpageA]), h.2.2.1 (by simp [wpageA])⟩

/-- Claim C4: committing the engine's result and applying the engine a second time with the same target format and user-space unit scale yields NoChange; likewise a page already within the 1-unit threshold yields NoChange immediately. -/
theorem c4_second_application_noop (fmt_mm : ℚ × ℚ) (pg pg' : Page) (xd yd : ℚ)
    (hxd : xd = pg.mediabox.x1 - pg.mediabox.x0 - fmt_mm.1 / (PT * pg.userUnit))
    (hyd : yd = pg.mediabox.y1 - pg.mediabox.y0 - fmt_mm.2 / (PT * pg.userUnit)) :
    (scalePage fmt_mm pg = some pg' → scalePage fmt_mm pg' = none) ∧
    ((|xd| < 1 ∧ |yd| < 1) → scalePage fmt_mm pg = none) := by
  subst hxd hyd
  constructor
  · intro hs
    simp only [scalePage, fmtNative] at hs
    by_cases hc : |pg.mediabox.x1 - pg.mediabox.x0 - fmt_mm.1 / (PT * pg.userUnit)| < 1 ∧
        |pg.mediabox.y1 - pg.mediabox.y0 - fmt_mm.2 / (PT * pg.userUnit)| < 1
    · rw [if_pos hc] at hs
      exact absurd hs (by simp)
    · rw [if_neg hc] at hs
      have hpg : pg' = _ := (Option.some.injEq _ _ ▸ hs).symm
      subst hpg
      simp only [scalePage, fmtNative]
      rw [if_pos]
      constructor
      · rw [show pg.mediabox.x1 -
            (pg.mediabox.x1 - pg.mediabox.x0 - fmt_mm.1 / (PT * pg.userUnit)) -
            pg.mediabox.x0 - fmt_mm.1 / (PT * pg.userUnit) = 0 from by ring]
        norm_num
      · rw [show pg.mediabox.y1 -
            (pg.mediabox.y1 - pg.mediabox.y0 - fmt_mm.2 / (PT * pg.userUnit)) -
            pg.mediabox.y0 - fmt_mm.2 / (PT * pg.userUnit) = 0 from by ring]
        norm_num
  · intro hc
    simp only [scalePage, fmtNative]
    rw [if_pos hc]

/-- Witness for C4: the second application on the committed page yields NoChange. -/
theorem c4_second_application_noop_witness : scalePage (5 * PT, 20 * PT) wpageA' = none :=
  (c4_second_application_noop (5 * PT, 20 * PT) wpageA wpageA' 5 0
    (by simp only [wpageA, PT_eq]; norm_num)
    (by simp only [wpageA, PT_eq]; norm_num)).1 scale_eval_A

/-- Claim C5: for every series letter among a, b, c, every size 0..10, and any of the optional case-insensitive ISO 216 name forms (whitespace after the stripped part removed), the resolver returns width `2^(base - (size+1)/2) * 1000` and height `2^(base - size/2) * 1000` millimetres with base 1/4, 1/2, 3/8; in particular "a4", "A4", " A4 ", "din a4" and "iso216 a4" all resolve to the same format, approximately 210 mm by 297 mm. -/
theorem c5_iso216_resolution (series : Char) (size : ℕ) (pre : List Char) (k : ℕ) (s : String)
    (hser : series = 'a' ∨ series = 'b' ∨ series = 'c')
    (hsize : size ≤ 10)
    (hpre : pre ∈ isoPrefixes)
    (ht : cleanFmt s = pre ++ List.replicate k ' ' ++ series :: Nat.toDigits 10 size) :
    get_format s =
      some (Dec.fin ((2:ℝ) ^ (((isoBase series - ((size:ℚ) + 1) / 2 : ℚ) : ℝ)) * 1000),
            Dec.fin ((2:ℝ) ^ (((isoBase series - (size:ℚ) / 2 : ℚ) : ℝ)) * 1000)) ∧
    isoBase 'a' = 1/4 ∧ isoBase 'b' = 1/2 ∧ isoBase 'c' = 3/8 ∧
    (get_format ("a4") = get_format ("A4") ∧ get_format ("A4") = get_format (" A4 ") ∧
     get_format (" A4 ") = get_format ("din a4") ∧
     get_format ("din a4") = get_format ("iso216 a4")) ∧
    get_format ("a4") =
      some (Dec.fin ((2:ℝ) ^ ((-9 : ℝ)/4) * 1000), Dec.fin ((2:ℝ) ^ ((-7 : ℝ)/4) * 1000)) ∧
    |(2:ℝ) ^ ((-9 : ℝ)/4) * 1000 - 210| < 1 ∧
    |(2:ℝ) ^ ((-7 : ℝ)/4) * 1000 - 297| < 1 := by
  obtain ⟨hparse, hnx⟩ := digitsFact size hsize
  have hxnot : 'x' ∉ cleanFmt s := by
    rw [ht]
    intro hmem
    rcases List.mem_append.mp hmem with h1 | h2
    · rcases List.mem_append.mp h1 with h3 | h4
      · simp only [isoPrefixes, List.mem_cons, List.not_mem_nil, or_false] at hpre
        rcases hpre with rfl | rfl | rfl | rfl | rfl <;> simp at h3
      · exact absurd (List.eq_of_mem_replicate h4) (by decide)
    · rcases List.mem_cons.mp h2 with h5 | h6
      · rcases hser with rfl | rfl | rfl <;> exact absurd h5 (by decide)
      · exact hnx h6
  have hmain : get_format s = some (iso216_format series ((size : ℕ) : ℤ)) := by
    rw [get_format_skip_x hxnot, ht]
    exact isoNamed_of_loop (isoLoop_resolves series _ _ k pre hser hparse
      (Int.natCast_nonneg size) (by exact_mod_cast hsize) hpre)
  refine ⟨?_, rfl, rfl, rfl, ⟨rfl, rfl, rfl, rfl⟩, ?_, rpow_a4_width_bound,
    rpow_a4_height_bound⟩
  · rw [hmain]
    simp only [iso216_format, Int.cast_natCast]
  · rw [show get_format ("a4") = some (iso216_format 'a' 4) from rfl, iso216_a4_value']

/-- Witness for C5: "DIN- B0" resolves through the `din-` branch to the B0 format. -/
theorem c5_iso216_resolution_witness :
    get_format ("DIN- B0") =
      some (Dec.fin ((2:ℝ) ^ (((isoBase 'b' - (((0:ℕ):ℚ) + 1) / 2 : ℚ) : ℝ)) * 1000),
            Dec.fin ((2:ℝ) ^ (((isoBase 'b' - ((0:ℕ):ℚ) / 2 : ℚ) : ℝ)) * 1000)) :=
  (c5_iso216_resolution 'b' 0 ['d', 'i', 'n', '-'] 1 ("DIN- B0") (by decide) (by decide) (by decide)
    (by decide)).1

/-- Claim C6: for all strings `W` and `H` that are valid decimal literals, resolving `W ++ "x" ++ H` returns exactly the pair of parsed decimals, verbatim, with no unit conversion applied and no later matching stage attempted. -/
theorem c6_explicit_dimensions (W H : String) (w h : Dec)
    (hW : pyDecimal W.data = some w) (hH : pyDecimal H.data = some h) :
    get_format (W ++ "x" ++ H) = some (w, h) := by
  have hdata : (W ++ "x" ++ H).data = W.data ++ 'x' :: H.data := by
    rw [String.data_append, String.data_append, List.append_assoc]
    rfl
  have hclean : cleanFmt (W ++ "x" ++ H) =
      trimLeft (W.data.map lowerChar) ++ 'x' :: trimRight (H.data.map lowerChar) := by
    unfold cleanFmt
    rw [hdata, List.map_append, List.map_cons, show lowerChar 'x' = 'x' from rfl]
    exact trimWS_append_cons rfl
  have hxA : 'x' ∉ trimLeft (W.data.map lowerChar) := fun hx =>
    pyDecimal_no_x hW ((List.dropWhile_sublist isSpaceChar).subset hx)
  have hmem : 'x' ∈ cleanFmt (W ++ "x" ++ H) := by
    rw [hclean]
    simp
  have hsplit : splitAtFirst 'x' (cleanFmt (W ++ "x" ++ H)) =
      (trimLeft (W.data.map lowerChar), trimRight (H.data.map lowerChar)) := by
    rw [hclean]
    exact splitAtFirst_append hxA
  unfold get_format
  rw [if_pos hmem, hsplit]
  simp only [pyDecimal_trimLeft_lower, pyDecimal_trimRight_lower, hW, hH]

/-- Witness for C6: "1.5x2" returns the two parsed decimals verbatim. -/
theorem c6_explicit_dimensions_witness :
    get_format ("1.5" ++ "x" ++ "2") =
      some (Dec.fin (decValue false ['1'] ['5'] 0), Dec.fin (decValue false ['2'] [] 0)) :=
  c6_explicit_dimensions ("1.5") ("2") _ _ rfl rfl

/-- Claim C7 (counterexample): it is not true that every format returned by the resolver has strictly positive width and height: "0x0" resolves, through the explicit-dimensions stage, to a format whose dimensions are zero. -/
theorem c7_positivity_counterexample :
    ¬ ∀ (s : String) (w h : Dec), get_format s = some (w, h) → w.IsPos ∧ h.IsPos := by
  intro hall
  have h0 : get_format ("0x0") =
      some (Dec.fin (decValue false ['0'] [] 0), Dec.fin (decValue false ['0'] [] 0)) := rfl
  have hpos := (hall _ _ _ h0).1
  simp only [Dec.IsPos] at hpos
  have hval : decValue false ['0'] [] 0 = 0 := by
    simp [decValue, digitsToNat, digitVal, show ('0').toNat = 48 from rfl]
  rw [hval] at hpos
  exact absurd hpos (lt_irrefl 0)

/-- Claim C7 (amended): every format produced by the ISO 216 and named-table stages has strictly positive width and height; the explicit-dimensions stage returns the parsed values verbatim, which can be zero, negative or non-finite. -/
theorem c7_positivity_amended (t : List Char) (w h : Dec)
    (hs : isoNamed t = some (w, h)) : w.IsPos ∧ h.IsPos := by
  unfold isoNamed at hs
  cases hloop : isoLoop isoPrefixes t with
  | some f =>
    rw [hloop] at hs
    obtain ⟨c, z, rfl⟩ := isoLoop_shape hloop
    simp only [Option.some.injEq] at hs
    unfold iso216_format at hs
    injection hs with hw hh
    subst hw hh
    simp only [Dec.IsPos]
    constructor <;>
      exact mul_pos (Real.rpow_pos_of_pos (by norm_num) _) (by norm_num)
  | none =>
    rw [hloop] at hs
    unfold namedFormats at hs
    split_ifs at hs with h1 h2 <;>
    · simp only [Option.some.injEq] at hs
      unfold usLetter at hs
      injection hs with hw hh
      subst hw hh
      simp only [Dec.IsPos]
      exact ⟨Rat.cast_pos.mpr (by norm_num [INCH]), Rat.cast_pos.mpr (by norm_num [INCH])⟩

/-- Witness for the amended C7: the named-table output for "letter" is positive. -/
theorem c7_positivity_amended_witness :
    isoNamed (String.data ("letter")) = some usLetter ∧
    (Dec.fin (((85 / 10 * INCH : ℚ) : ℝ))).IsPos ∧
    (Dec.fin (((14 * INCH : ℚ) : ℝ))).IsPos :=
  ⟨rfl, (c7_positivity_amended (String.data ("letter")) _ _ rfl).1,
    (c7_positivity_amended (String.data ("letter")) _ _ rfl).2⟩

/-- Claim C8 (counterexample): `PT` is not exactly the rational 25.4/72, because the default decimal context rounds `Decimal(1)/72` and the subsequent product to 28 significant digits. -/
theorem c8_pt_counterexample : PT ≠ 127 / 360 := by rw [PT_eq]; norm_num

/-- Claim C8 (amended): `PT` is exactly 0.3527777777777777777777777778 — the rounding of 25.4/72 to 28 significant digits, within 10^-27 of the exact rational — and the target size in page-native units is computed as `fmt = target_mm / (PT * user_unit)` component-wise. -/
theorem c8_pt_amended :
    PT = 3527777777777777777777777778 / 10 ^ 28 ∧
    |PT - 127 / 360| < 1 / 10 ^ 27 ∧
    ∀ (fmt_mm : ℚ × ℚ) (u : ℚ),
      fmtNative fmt_mm u = (fmt_mm.1 / (PT * u), fmt_mm.2 / (PT * u)) :=
  ⟨PT_eq, by rw [PT_eq, abs_of_pos (by norm_num)]; norm_num, fun _ _ => rfl⟩

/-- Claim C9: the explicit-dimensions stage accepts the Decimal special literals as valid numbers: "nanxinf" resolves to the non-finite pair (NaN, Infinity) rather than NotFound. -/
theorem c9_special_literals :
    get_format ("nanxinf") = some (Dec.nan false false 0, Dec.inf false) ∧
    (Dec.nan false false 0).isFiniteVal = false ∧
    (Dec.inf false).isFiniteVal = false :=
  ⟨rfl, rfl, rfl⟩

/-- Claim C10: the explicit-dimensions stage splits only at the first `x`, so the entire remainder must be one valid decimal literal; when that remainder fails to parse the stage is silently abandoned and resolution falls through to the ISO 216 and named-table stages ("1x2x3" resolves to none through those stages rather than failing the whole resolution). -/
theorem c10_split_first_x_fallthrough (s : String) (W R : List Char)
    (hsplit : cleanFmt s = W ++ 'x' :: R) (hW : 'x' ∉ W)
    (hR : pyDecimal R = none) :
    get_format s = isoNamed (cleanFmt s) ∧ get_format ("1x2x3") = none := by
  refine ⟨?_, rfl⟩
  have hmem : 'x' ∈ cleanFmt s := by
    rw [hsplit]
    simp
  unfold get_format
  rw [if_pos hmem, hsplit, splitAtFirst_append hW]
  dsimp only
  simp only [hR]
  cases pyDecimal W <;> rfl

/-- Witness for C10: "1x2x3" falls through to the later stages and resolves to none. -/
theorem c10_split_first_x_fallthrough_witness :
    get_format ("1x2x3") = isoNamed (cleanFmt ("1x2x3")) ∧ get_format ("1x2x3") = none :=
  ⟨(c10_split_first_x_fallthrough ("1x2x3") ['1'] ['2', 'x', '3'] rfl (by decide) rfl).1,
   (c10_split_first_x_fallthrough ("1x2x3") ['1'] ['2', 'x', '3'] rfl (by decide) rfl).2⟩

end Pdfscale
